import Mathlib

/-!
# Verification of the go-shopify pagination subsystem

Shallow embedding of the pagination-related code of the `go-shopify` client
library: the `linkRegex` Link-header pattern and the `Pagination` structure
(products file), the payouts service (`payouts.go`), and — modelled from the
specification where the generic client code is not among the provided source
files — the Link-header parser and the generic `ListWithPagination` protocol.

Go strings are byte sequences; they are modelled here as `List Char`.
-/

namespace GoShopify

/-! ## Character-list helpers (semantics of the Go regexp and strings package) -/

/-- All characters of the list are the space character (the semantics of a
maximal run matched by the regexp fragment `" *"`). -/
def allSpaces : List Char → Bool
  | [] => true
  | c :: rest => c = ' ' && allSpaces rest

/-- Drop the maximal run of leading spaces (the anchored greedy `"^ *"`). -/
def dropSpaces : List Char → List Char
  | ' ' :: rest => dropSpaces rest
  | s => s

/-- Longest initial run of characters other than `>` together with the rest of
the input (the greedy character class `[^>]+` stops at the first `>`). -/
def readUntilGt : List Char → List Char × List Char
  | [] => ([], [])
  | c :: rest =>
    if c = '>' then ([], c :: rest)
    else
      let p := readUntilGt rest
      (c :: p.1, p.2)

/-- Consume an exact literal from the front of the input, returning the rest,
or `none` when the input does not start with the literal. -/
def stripLit : List Char → List Char → Option (List Char)
  | [], s => some s
  | _ :: _, [] => none
  | l :: ls, c :: cs => if c = l then stripLit ls cs else none

/-- Go `strings.Split` on a one-character separator: returns the parts between
occurrences of the separator, empty parts included. -/
def splitOn (sep : Char) : List Char → List (List Char)
  | [] => [[]]
  | c :: rest =>
    let r := splitOn sep rest
    if c = sep then [] :: r
    else
      match r with
      | [] => [[c]]
      | p :: ps => (c :: p) :: ps

/-! ## The `linkRegex` pattern

Source (products file, line 13):
`var linkRegex = regexp.MustCompile("^ *<([^>]+)>; rel=\x22(previous|next)\x22 *$")`

The pattern is anchored on both sides and built from literals, one greedy
space run at each end, the greedy class `[^>]+` (which must stop at the
following literal `>`), and a first-character-disjoint alternation
`(previous|next)`, so matching is deterministic; `linkRegexMatch` below is its
direct operational reading, returning the two capture groups on a match. -/

/-- First capture alternative of `linkRegex`: the literal `previous`. -/
def relPrevious : List Char := ['p', 'r', 'e', 'v', 'i', 'o', 'u', 's']

/-- Second capture alternative of `linkRegex`: the literal `next`. -/
def relNext : List Char := ['n', 'e', 'x', 't']

/-- The literal between the two capture groups of `linkRegex`: the closing
`>` of the URL bracket followed by `; rel="`. -/
def midLit : List Char := ['>', ';', ' ', 'r', 'e', 'l', '=', '"']

/-- Close a capture of relation `rel`: the closing double quote of
`rel="..."`, then only trailing spaces up to the end of the entry. -/
def finishRel (url rest4 rel : List Char) : Option (List Char × List Char) :=
  match stripLit ['"'] rest4 with
  | some rest5 => if allSpaces rest5 then some (url, rel) else none
  | none => none

/-- Matching a single Link-header entry against `linkRegex`, returning the two
captured groups (URL, relation) on success.

The two alternatives of `(previous|next)` begin with distinct characters, so
at most one of them can consume the input and no backtracking between the
alternatives is observable; trying `previous` first and `next` second is
exactly the leftmost-alternative semantics of the Go pattern. -/
def linkRegexMatch (s : List Char) : Option (List Char × List Char) :=
  match stripLit ['<'] (dropSpaces s) with
  | none => none
  | some rest =>
    let p := readUntilGt rest
    if p.1 = [] then none
    else
      match stripLit midLit p.2 with
      | none => none
      | some rest3 =>
        match stripLit relPrevious rest3 with
        | some rest4 => finishRel p.1 rest4 relPrevious
        | none =>
          match stripLit relNext rest3 with
          | some rest4 => finishRel p.1 rest4 relNext
          | none => none

/-- Modelled from the spec: `ListOptions` — the repository file defining it is
not among the provided source files — is the cursor type referred to by
`Pagination`: the pagination-relevant query parameters of a link URL ("cursor
token, limit, and any other query parameters present", spec §4.1 step 4),
kept as the ordered key-value pairs of the URL's query string, renderable
back into a query string (spec §6). -/
abbrev ListOptions : Type := List (List Char × List Char)

/-- Pagination of results (products file, lines 93-97). -/
structure Pagination where
  NextPageOptions : Option ListOptions
  PreviousPageOptions : Option ListOptions
deriving DecidableEq, Repr

/-- Split a query-string segment at its first `=`: the key is everything
before it, the value everything after; a segment with no `=` is a key with an
empty value. -/
def splitFirstEq : List Char → List Char × List Char
  | [] => ([], [])
  | c :: rest =>
    if c = '=' then ([], rest)
    else
      let p := splitFirstEq rest
      (c :: p.1, p.2)

/-- The query string of a URL: everything after the first `?`, empty when the
URL has no `?`. -/
def queryOf : List Char → List Char
  | [] => []
  | c :: rest => if c = '?' then rest else queryOf rest

/-- Modelled from the spec: parse a query string into ordered key-value pairs
(spec §4.1 step 4) — segments between `&`, empty segments skipped, each
segment split at its first `=`. -/
def parseQueryString (q : List Char) : ListOptions :=
  ((splitOn '&' q).filter (· ≠ [])).map splitFirstEq

/-- Modelled from the spec: render cursor fields back into a query string
(spec §6), joining `key=value` segments with `&`. -/
def serializeQuery (opts : ListOptions) : List Char :=
  List.intercalate ['&'] (opts.map fun kv => kv.1 ++ '=' :: kv.2)

/-- The cursor extracted from a matched link URL: the parsed query string. -/
def parseQuery (url : List Char) : ListOptions :=
  parseQueryString (queryOf url)

/-- Modelled from the spec: how one (possibly failed) `linkRegex` match result
updates the pagination being accumulated — a non-match is silently skipped,
a match stores the URL's cursor under its relation name (spec §4.1 steps 3
and 4), a later entry for the same relation overwriting an earlier one
(spec §4.1 edge cases: last one wins). -/
def paginationStep (pag : Pagination) : Option (List Char × List Char) → Pagination
  | none => pag
  | some (url, rel) =>
    if rel = relNext then { pag with NextPageOptions := some (parseQuery url) }
    else if rel = relPrevious then { pag with PreviousPageOptions := some (parseQuery url) }
    else pag

/-- Process one Link-header entry: match it against `linkRegex` and feed the
result to `paginationStep`. -/
def applyEntry (pag : Pagination) (entry : List Char) : Pagination :=
  paginationStep pag (linkRegexMatch entry)

/-- Modelled from the spec: the Link-header parser (spec §4.1) — split the
raw header value on `,` and process the entries left to right, starting from
the empty pagination. -/
def extractPagination (header : List Char) : Pagination :=
  (splitOn ',' header).foldl applyEntry ⟨none, none⟩

/-- Modelled from the spec: an absent Link header yields the empty pagination
(spec §3 invariant). -/
def extractPaginationHeader : Option (List Char) → Pagination
  | none => ⟨none, none⟩
  | some h => extractPagination h

/-! ## The generic client protocol (modelled from the spec) -/

/-- Modelled from the spec: the error kinds of §7. -/
inductive ClientError where
  | transport (msg : List Char)
  | api (status : Nat) (body : List Char)
  | decode (body : List Char)
deriving DecidableEq, Repr

/-- Modelled from the spec: the HTTP methods of the collaborator contract
(spec §6). -/
inductive HttpMethod where
  | get
  | post
  | put
  | delete
deriving DecidableEq, Repr

/-- Modelled from the spec: the raw response of the HTTP collaborator — the
status, the `Link` header when present, and the body (spec §6). -/
structure RawResp where
  status : Nat
  linkHeader : Option (List Char)
  body : List Char
deriving DecidableEq, Repr

/-- Modelled from the spec: the HTTP client collaborator, observed through
one function from (method, path, request body, options) to either a
transport error or a raw response (spec §6). -/
structure Client where
  call : HttpMethod → List Char → Option (List Char) → Option ListOptions →
    Except (List Char) RawResp

/-- One request as issued through the collaborator: method, path, request
body, options. -/
abbrev Req : Type := HttpMethod × List Char × Option (List Char) × Option ListOptions

/-- A 2xx HTTP status. -/
def is2xx (status : Nat) : Bool := 200 ≤ status && status < 300

/-- Modelled from the spec: the generic `ListWithPagination` protocol (spec
§4.2) — issue one GET, fail with an API error on a non-2xx status, fail with
a decode error when the body does not decode into the caller's container,
and otherwise return the decoded items together with the pagination read
from the `Link` header. The list of issued requests is returned alongside
the outcome. -/
def Client.ListWithPagination {α : Type} (c : Client) (decode : List Char → Option (List α))
    (path : List Char) (options : Option ListOptions) :
    List Req × Except ClientError (List α × Pagination) :=
  ([(.get, path, none, options)],
    match c.call .get path none options with
    | .error m => .error (.transport m)
    | .ok r =>
      if is2xx r.status then
        match decode r.body with
        | none => .error (.decode r.body)
        | some items => .ok (items, extractPaginationHeader r.linkHeader)
      else .error (.api r.status r.body))

/-- Modelled from the spec: a plain single-resource GET through the
collaborator, with the same status and decode handling. -/
def Client.Get {α : Type} (c : Client) (decodeOne : List Char → Option α)
    (path : List Char) (options : Option ListOptions) :
    List Req × (Option α × Option ClientError) :=
  ([(.get, path, none, options)],
    match c.call .get path none options with
    | .error m => (none, some (.transport m))
    | .ok r =>
      if is2xx r.status then
        match decodeOne r.body with
        | none => (none, some (.decode r.body))
        | some x => (some x, none)
      else (none, some (.api r.status r.body)))

/-- Modelled from the spec: POST a serialized wrapped resource and decode the
response. -/
def Client.Post {α β : Type} (c : Client) (encode : β → List Char)
    (decodeOne : List Char → Option α) (path : List Char) (wrapped : β) :
    List Req × (Option α × Option ClientError) :=
  ([(.post, path, some (encode wrapped), none)],
    match c.call .post path (some (encode wrapped)) none with
    | .error m => (none, some (.transport m))
    | .ok r =>
      if is2xx r.status then
        match decodeOne r.body with
        | none => (none, some (.decode r.body))
        | some x => (some x, none)
      else (none, some (.api r.status r.body)))

/-- Modelled from the spec: PUT a serialized wrapped resource and decode the
response. -/
def Client.Put {α β : Type} (c : Client) (encode : β → List Char)
    (decodeOne : List Char → Option α) (path : List Char) (wrapped : β) :
    List Req × (Option α × Option ClientError) :=
  ([(.put, path, some (encode wrapped), none)],
    match c.call .put path (some (encode wrapped)) none with
    | .error m => (none, some (.transport m))
    | .ok r =>
      if is2xx r.status then
        match decodeOne r.body with
        | none => (none, some (.decode r.body))
        | some x => (some x, none)
      else (none, some (.api r.status r.body)))

/-- Modelled from the spec: DELETE a resource. -/
def Client.Delete (c : Client) (path : List Char) :
    List Req × Option ClientError :=
  ([(.delete, path, none, none)],
    match c.call .delete path none none with
    | .error m => some (.transport m)
    | .ok r => if is2xx r.status then none else some (.api r.status r.body))

/-- Modelled from the spec: GET a count, returning zero alongside any
error. -/
def Client.Count (c : Client) (decodeCount : List Char → Option Int)
    (path : List Char) (options : Option ListOptions) :
    List Req × (Int × Option ClientError) :=
  ([(.get, path, none, options)],
    match c.call .get path none options with
    | .error m => (0, some (.transport m))
    | .ok r =>
      if is2xx r.status then
        match decodeCount r.body with
        | none => (0, some (.decode r.body))
        | some n => (n, none)
      else (0, some (.api r.status r.body)))

/-! ## Service components (from the source)

The decoded item types (`Product`, `Payout`, `PayoutTransaction`) are opaque
to every pagination decision the services make, so the methods are stated
generically over the decoded item type with the resource-specific JSON
decoding passed in as a function; the receiver after the call and the list
of issued requests are returned alongside the Go return values. -/

/-- Outcome of one service-method call: the receiver after the call, the
requests issued through the client, and the method's Go return values. -/
structure ServiceCall (σ ρ : Type) where
  receiver : σ
  requests : List Req
  result : ρ

/-- Source: `const productsBasePath = "products"`. -/
def productsBasePath : List Char := ("products").toList

/-- Source (`payouts.go`): `payoutsBasePath = "shopify_payments/payouts"`. -/
def payoutsBasePath : List Char := ("shopify_payments/payouts").toList

/-- Source (`payouts.go`):
`payoutTransactionsBasePath = "shopify_payments/balance/transactions"`. -/
def payoutTransactionsBasePath : List Char :=
  ("shopify_payments/balance/transactions").toList

/-- ProductServiceOp handles communication with the product related methods;
its only field is the client reference (products file, lines 33-35). -/
structure ProductServiceOp where
  client : Client

/-- PayoutsServiceOp handles communication with the payout related methods;
its only field is the client reference (`payouts.go`, lines 27-29). -/
structure PayoutsServiceOp where
  client : Client

/-- ListWithPagination lists products and returns pagination (products file,
lines 109-119): one generic paged list call on `"products.json"`; on error
return nil items, nil pagination and the error; otherwise the decoded items,
the pagination and no error. -/
def ProductServiceOp.ListWithPagination {α : Type} (decode : List Char → Option (List α))
    (s : ProductServiceOp) (options : Option ListOptions) :
    ServiceCall ProductServiceOp (Option (List α) × Option Pagination × Option ClientError) :=
  let path := productsBasePath ++ (".json").toList
  let c := Client.ListWithPagination s.client decode path options
  match c.2 with
  | .error e => ⟨s, c.1, (none, none, some e)⟩
  | .ok (items, pagination) => ⟨s, c.1, (some items, some pagination, none)⟩

/-- Count products (products file, lines 122-125). -/
def ProductServiceOp.Count (decodeCount : List Char → Option Int)
    (s : ProductServiceOp) (options : Option ListOptions) :
    ServiceCall ProductServiceOp (Int × Option ClientError) :=
  let c := Client.Count s.client decodeCount (productsBasePath ++ ("/count.json").toList) options
  ⟨s, c.1, c.2⟩

/-- Get individual product (products file, lines 128-133). -/
def ProductServiceOp.Get {α : Type} (decodeOne : List Char → Option α)
    (s : ProductServiceOp) (productID : Int) (options : Option ListOptions) :
    ServiceCall ProductServiceOp (Option α × Option ClientError) :=
  let path := productsBasePath ++ '/' :: (toString productID).toList ++ (".json").toList
  let c := Client.Get s.client decodeOne path options
  ⟨s, c.1, c.2⟩

/-- Create a new product (products file, lines 136-142); `encode` stands for
the JSON serialization of the wrapped `ProductResource`. -/
def ProductServiceOp.Create {α β : Type} (encode : β → List Char)
    (decodeOne : List Char → Option α) (s : ProductServiceOp) (product : β) :
    ServiceCall ProductServiceOp (Option α × Option ClientError) :=
  let c := Client.Post s.client encode decodeOne (productsBasePath ++ (".json").toList) product
  ⟨s, c.1, c.2⟩

/-- Update an existing product (products file, lines 145-151); `idOf` reads
the product's ID used in the path. -/
def ProductServiceOp.Update {α β : Type} (idOf : β → Int) (encode : β → List Char)
    (decodeOne : List Char → Option α) (s : ProductServiceOp) (product : β) :
    ServiceCall ProductServiceOp (Option α × Option ClientError) :=
  let path := productsBasePath ++ '/' :: (toString (idOf product)).toList ++ (".json").toList
  let c := Client.Put s.client encode decodeOne path product
  ⟨s, c.1, c.2⟩

/-- Delete an existing product (products file, lines 154-156). -/
def ProductServiceOp.Delete (s : ProductServiceOp) (productID : Int) :
    ServiceCall ProductServiceOp (Option ClientError) :=
  let path := productsBasePath ++ '/' :: (toString productID).toList ++ (".json").toList
  let c := Client.Delete s.client path
  ⟨s, c.1, c.2⟩

/-- List products (products file, lines 100-106): call `ListWithPagination`,
drop the pagination, and on error return nil items and the error. This
declaration comes after the other product methods because its short name
shadows the root `List` inside later declarations of the same namespace. -/
def ProductServiceOp.List {α : Type} (decode : List Char → Option (List α))
    (s : ProductServiceOp) (options : Option ListOptions) :
    ServiceCall ProductServiceOp (Option (List α) × Option ClientError) :=
  let r := ProductServiceOp.ListWithPagination decode s options
  match r.result.2.2 with
  | some e => ⟨r.receiver, r.requests, (none, some e)⟩
  | none => ⟨r.receiver, r.requests, (r.result.1, none)⟩

/-- ListWithPagination for payouts (`payouts.go`, lines 86-96). -/
def PayoutsServiceOp.ListWithPagination {α : Type} (decode : List Char → Option (List α))
    (s : PayoutsServiceOp) (options : Option ListOptions) :
    ServiceCall PayoutsServiceOp (Option (List α) × Option Pagination × Option ClientError) :=
  let path := payoutsBasePath ++ (".json").toList
  let c := Client.ListWithPagination s.client decode path options
  match c.2 with
  | .error e => ⟨s, c.1, (none, none, some e)⟩
  | .ok (items, pagination) => ⟨s, c.1, (some items, some pagination, none)⟩

/-- Get individual payout (`payouts.go`, lines 99-104). -/
def PayoutsServiceOp.Get {α : Type} (decodeOne : List Char → Option α)
    (s : PayoutsServiceOp) (id : Int) (options : Option ListOptions) :
    ServiceCall PayoutsServiceOp (Option α × Option ClientError) :=
  let path := payoutsBasePath ++ '/' :: (toString id).toList ++ (".json").toList
  let c := Client.Get s.client decodeOne path options
  ⟨s, c.1, c.2⟩

/-- TransactionsForPayout (`payouts.go`, lines 107-117): one paged list call
on `"shopify_payments/balance/transactions.json?payout_id=" ++ payoutID`
with nil options; the returned pagination is discarded, on error nil
transactions and the error are returned. -/
def PayoutsServiceOp.TransactionsForPayout {α : Type} (decode : List Char → Option (List α))
    (s : PayoutsServiceOp) (payoutID : Int) :
    ServiceCall PayoutsServiceOp (Option (List α) × Option ClientError) :=
  let path := payoutTransactionsBasePath ++ (".json?payout_id=").toList ++
    (toString payoutID).toList
  let c := Client.ListWithPagination s.client decode path none
  match c.2 with
  | .error e => ⟨s, c.1, (none, some e)⟩
  | .ok (txs, _) => ⟨s, c.1, (some txs, none)⟩

/-- List payouts (`payouts.go`, lines 78-84); placed after the other payout
methods because its short name shadows the root `List` inside later
declarations of the same namespace. -/
def PayoutsServiceOp.List {α : Type} (decode : List Char → Option (List α))
    (s : PayoutsServiceOp) (options : Option ListOptions) :
    ServiceCall PayoutsServiceOp (Option (List α) × Option ClientError) :=
  let r := PayoutsServiceOp.ListWithPagination decode s options
  match r.result.2.2 with
  | some e => ⟨r.receiver, r.requests, (none, some e)⟩
  | none => ⟨r.receiver, r.requests, (r.result.1, none)⟩

/-- The shape of strings claimed to be exactly the language of `linkRegex`:
optional spaces, `<`, the URL, `>; rel="`, the relation, `"`, optional
spaces. -/
def mkEntry (ws1 url rel ws2 : List Char) : List Char :=
  ws1 ++ '<' :: (url ++ midLit ++ rel ++ '"' :: ws2)

/-! ### Helper lemmas about the matcher components -/

theorem dropSpaces_append_of_allSpaces (ws l : List Char) (h : allSpaces ws = true) :
    dropSpaces (ws ++ l) = dropSpaces l := by
  induction ws with
  | nil => rfl
  | cons c rest ih =>
    simp only [allSpaces, Bool.and_eq_true, decide_eq_true_eq] at h
    obtain ⟨rfl, hrest⟩ := h
    simpa [dropSpaces] using ih hrest

theorem dropSpaces_cons_of_ne (c : Char) (l : List Char) (h : c ≠ ' ') :
    dropSpaces (c :: l) = c :: l := by
  unfold dropSpaces
  split
  · next heq => exact absurd (List.cons.injEq .. ▸ congrArg id heq).1 h
  · rfl

theorem dropSpaces_decomp (s : List Char) :
    ∃ ws, allSpaces ws = true ∧ s = ws ++ dropSpaces s := by
  induction s with
  | nil => exact ⟨[], rfl, rfl⟩
  | cons c rest ih =>
    by_cases hc : c = ' '
    · obtain ⟨ws, hws, hrest⟩ := ih
      subst hc
      refine ⟨' ' :: ws, ?_, ?_⟩
      · simpa [allSpaces] using hws
      · simpa [dropSpaces] using hrest
    · exact ⟨[], rfl, by rw [dropSpaces_cons_of_ne c rest hc]; rfl⟩

theorem readUntilGt_append (url rest : List Char) (h : '>' ∉ url) :
    readUntilGt (url ++ '>' :: rest) = (url, '>' :: rest) := by
  induction url with
  | nil => simp [readUntilGt]
  | cons c cs ih =>
    simp only [List.mem_cons, not_or] at h
    obtain ⟨hc, hcs⟩ := h
    simp [readUntilGt, Ne.symm hc, ih hcs]

theorem readUntilGt_decomp (l : List Char) :
    l = (readUntilGt l).1 ++ (readUntilGt l).2 ∧ '>' ∉ (readUntilGt l).1 ∧
      ((readUntilGt l).2 = [] ∨ ∃ t, (readUntilGt l).2 = '>' :: t) := by
  induction l with
  | nil => exact ⟨rfl, by simp [readUntilGt], Or.inl rfl⟩
  | cons c cs ih =>
    by_cases hc : c = '>'
    · subst hc
      have h : readUntilGt ('>' :: cs) = ([], '>' :: cs) := by simp [readUntilGt]
      rw [h]
      exact ⟨rfl, by simp, Or.inr ⟨cs, rfl⟩⟩
    · obtain ⟨hdec, hmem, hrest⟩ := ih
      refine ⟨?_, ?_, ?_⟩
      · simpa [readUntilGt, hc] using congrArg (c :: ·) hdec
      · simp [readUntilGt, hc, hmem, Ne.symm hc]
      · simpa [readUntilGt, hc] using hrest

theorem stripLit_append (lit rest : List Char) :
    stripLit lit (lit ++ rest) = some rest := by
  induction lit with
  | nil => rfl
  | cons c cs ih => simp [stripLit, ih]

theorem stripLit_some (lit s rest : List Char) (h : stripLit lit s = some rest) :
    s = lit ++ rest := by
  induction lit generalizing s with
  | nil => simpa [stripLit] using h
  | cons c cs ih =>
    match s with
    | [] => exact absurd h (by simp [stripLit])
    | d :: ds =>
      simp only [stripLit] at h
      split at h
      · next heq => exact heq ▸ congrArg (d :: ·) (ih ds h) ▸ by simp_all
      · exact absurd h (by simp)

theorem stripLit_one (c : Char) (s rest : List Char) (h : stripLit [c] s = some rest) :
    s = c :: rest :=
  stripLit_some [c] s rest h

/-- Every string of the claimed shape matches `linkRegex` and the two capture
groups are exactly the URL and the relation name. -/
theorem linkRegexMatch_mkEntry (ws1 url rel ws2 : List Char)
    (h1 : allSpaces ws1 = true) (h2 : url ≠ []) (h3 : '>' ∉ url)
    (h4 : rel = relPrevious ∨ rel = relNext) (h5 : allSpaces ws2 = true) :
    linkRegexMatch (mkEntry ws1 url rel ws2) = some (url, rel) := by
  have hd : dropSpaces (mkEntry ws1 url rel ws2) =
      '<' :: (url ++ midLit ++ rel ++ '"' :: ws2) := by
    unfold mkEntry
    rw [dropSpaces_append_of_allSpaces _ _ h1,
      dropSpaces_cons_of_ne _ _ (by decide)]
  have hassoc : midLit ++ (rel ++ '"' :: ws2) =
      '>' :: ([';', ' ', 'r', 'e', 'l', '=', '"'] ++ (rel ++ '"' :: ws2)) := by
    simp [midLit]
  have hread : readUntilGt (url ++ (midLit ++ (rel ++ '"' :: ws2))) =
      (url, midLit ++ (rel ++ '"' :: ws2)) := by
    rw [hassoc, readUntilGt_append _ _ h3]
  have hone : stripLit ['<'] ('<' :: (url ++ midLit ++ rel ++ '"' :: ws2)) =
      some (url ++ midLit ++ rel ++ '"' :: ws2) :=
    stripLit_append ['<'] _
  unfold linkRegexMatch
  rw [hd, hone]
  rcases h4 with rfl | rfl
  · simp [hread, h2, stripLit_append, finishRel, stripLit, h5]
  · have hpn : stripLit relPrevious (relNext ++ '"' :: ws2) = none := by
      simp [relPrevious, relNext, stripLit]
    simp [hread, h2, hpn, stripLit_append, finishRel, stripLit, h5]

/-- Every successful `linkRegex` match arises from a string of the claimed
shape whose URL and relation are the two captured groups. -/
theorem linkRegexMatch_some_decomp (s url rel : List Char)
    (h : linkRegexMatch s = some (url, rel)) :
    ∃ ws1 ws2, allSpaces ws1 = true ∧ allSpaces ws2 = true ∧ url ≠ [] ∧
      '>' ∉ url ∧ (rel = relPrevious ∨ rel = relNext) ∧
      s = mkEntry ws1 url rel ws2 := by
  obtain ⟨ws1, hws1, hs⟩ := dropSpaces_decomp s
  unfold linkRegexMatch at h
  rcases h1 : stripLit ['<'] (dropSpaces s) with _ | rest
  · rw [h1] at h; exact absurd h (by simp)
  rw [h1] at h
  have hrest : dropSpaces s = '<' :: rest := stripLit_one _ _ _ h1
  obtain ⟨hdec, hnogt, -⟩ := readUntilGt_decomp rest
  have h' : (if (readUntilGt rest).1 = [] then none
      else
        match stripLit midLit (readUntilGt rest).2 with
        | none => none
        | some rest3 =>
          match stripLit relPrevious rest3 with
          | some rest4 => finishRel (readUntilGt rest).1 rest4 relPrevious
          | none =>
            match stripLit relNext rest3 with
            | some rest4 => finishRel (readUntilGt rest).1 rest4 relNext
            | none => none) = some (url, rel) := h
  by_cases hemp : (readUntilGt rest).1 = []
  · rw [if_pos hemp] at h'; exact absurd h' (by simp)
  rw [if_neg hemp] at h'
  rcases h2 : stripLit midLit (readUntilGt rest).2 with _ | rest3
  · rw [h2] at h'; exact absurd h' (by simp)
  rw [h2] at h'
  have hmid : (readUntilGt rest).2 = midLit ++ rest3 := stripLit_some _ _ _ h2
  have h'' : (match stripLit relPrevious rest3 with
      | some rest4 => finishRel (readUntilGt rest).1 rest4 relPrevious
      | none =>
        match stripLit relNext rest3 with
        | some rest4 => finishRel (readUntilGt rest).1 rest4 relNext
        | none => none) = some (url, rel) := h'
  have finish_case : ∀ r rest4, finishRel (readUntilGt rest).1 rest4 r = some (url, rel) →
      rest3 = r ++ rest4 →
      allSpaces ((stripLit ['"'] rest4).getD []) = true ∧
        url = (readUntilGt rest).1 ∧ rel = r ∧
        rest3 = r ++ '"' :: (stripLit ['"'] rest4).getD [] := by
    intro r rest4 hf hr3
    unfold finishRel at hf
    rcases h3 : stripLit ['"'] rest4 with _ | rest5
    · rw [h3] at hf; exact absurd hf (by simp)
    rw [h3] at hf
    have h4 : rest4 = '"' :: rest5 := stripLit_one _ _ _ h3
    have hf' : (if allSpaces rest5 = true then some ((readUntilGt rest).1, r) else none)
        = some (url, rel) := hf
    by_cases hsp : allSpaces rest5 = true
    · rw [if_pos hsp] at hf'
      have hinj := Option.some.inj hf'
      refine ⟨by simp [hsp], (congrArg Prod.fst hinj).symm,
        (congrArg Prod.snd hinj).symm, by rw [hr3, h4]; simp⟩
    · rw [if_neg hsp] at hf'; exact absurd hf' (by simp)
  rcases h5 : stripLit relPrevious rest3 with _ | rest4
  · rw [h5] at h''
    have h3 : (match stripLit relNext rest3 with
        | some rest4 => finishRel (readUntilGt rest).1 rest4 relNext
        | none => none) = some (url, rel) := h''
    rcases h6 : stripLit relNext rest3 with _ | rest4
    · rw [h6] at h3; exact absurd h3 (by simp)
    rw [h6] at h3
    have hfin : finishRel (readUntilGt rest).1 rest4 relNext = some (url, rel) := h3
    obtain ⟨hws2, hu, hr, hr3⟩ := finish_case relNext rest4 hfin (stripLit_some _ _ _ h6)
    subst hu; subst hr
    refine ⟨ws1, _, hws1, hws2, hemp, hnogt, Or.inr rfl, ?_⟩
    have hrest2 : rest = (readUntilGt rest).1 ++ midLit ++ relNext ++
        '"' :: (stripLit ['"'] rest4).getD [] := by
      conv_lhs => rw [hdec]
      rw [hmid, hr3]
      simp [List.append_assoc]
    rw [hs, hrest]
    unfold mkEntry
    rw [← hrest2]
  · rw [h5] at h''
    have hfin : finishRel (readUntilGt rest).1 rest4 relPrevious = some (url, rel) := h''
    obtain ⟨hws2, hu, hr, hr3⟩ := finish_case relPrevious rest4 hfin (stripLit_some _ _ _ h5)
    subst hu; subst hr
    refine ⟨ws1, _, hws1, hws2, hemp, hnogt, Or.inl rfl, ?_⟩
    have hrest2 : rest = (readUntilGt rest).1 ++ midLit ++ relPrevious ++
        '"' :: (stripLit ['"'] rest4).getD [] := by
      conv_lhs => rw [hdec]
      rw [hmid, hr3]
      simp [List.append_assoc]
    rw [hs, hrest]
    unfold mkEntry
    rw [← hrest2]

/-! ### Lemmas about header folding -/

theorem applyEntry_of_none (pag : Pagination) (e : List Char)
    (h : linkRegexMatch e = none) : applyEntry pag e = pag := by
  simp [applyEntry, h, paginationStep]

theorem foldl_applyEntry_skip (es : List (List Char)) (pag : Pagination)
    (h : ∀ e ∈ es, linkRegexMatch e = none) :
    es.foldl applyEntry pag = pag := by
  induction es generalizing pag with
  | nil => rfl
  | cons e rest ih =>
    rw [List.foldl_cons, applyEntry_of_none pag e (h e (by simp)),
      ih pag fun x hx => h x (by simp [hx])]

theorem relPrevious_ne_relNext : ¬ relPrevious = relNext := by decide

theorem paginationStep_next_isSome (pag : Pagination) (o : Option (List Char × List Char))
    (h : pag.NextPageOptions.isSome = true) :
    (paginationStep pag o).NextPageOptions.isSome = true := by
  rcases o with - | ⟨url, rel⟩
  · exact h
  · unfold paginationStep
    by_cases hn : rel = relNext
    · simp [hn]
    · by_cases hp : rel = relPrevious <;>
        simp [hn, hp, relPrevious_ne_relNext, h]

theorem paginationStep_prev_isSome (pag : Pagination) (o : Option (List Char × List Char))
    (h : pag.PreviousPageOptions.isSome = true) :
    (paginationStep pag o).PreviousPageOptions.isSome = true := by
  rcases o with - | ⟨url, rel⟩
  · exact h
  · unfold paginationStep
    by_cases hn : rel = relNext
    · simp [hn, h]
    · by_cases hp : rel = relPrevious <;>
        simp [hn, hp, relPrevious_ne_relNext, h]

theorem foldl_next_isSome_of_isSome (es : List (List Char)) (pag : Pagination)
    (h : pag.NextPageOptions.isSome = true) :
    ((es.foldl applyEntry pag).NextPageOptions).isSome = true := by
  induction es generalizing pag with
  | nil => exact h
  | cons e rest ih =>
    exact ih _ (paginationStep_next_isSome pag (linkRegexMatch e) h)

theorem foldl_prev_isSome_of_isSome (es : List (List Char)) (pag : Pagination)
    (h : pag.PreviousPageOptions.isSome = true) :
    ((es.foldl applyEntry pag).PreviousPageOptions).isSome = true := by
  induction es generalizing pag with
  | nil => exact h
  | cons e rest ih =>
    exact ih _ (paginationStep_prev_isSome pag (linkRegexMatch e) h)

theorem foldl_next_isSome (es : List (List Char)) (pag : Pagination)
    (h : ∃ e ∈ es, ∃ u, linkRegexMatch e = some (u, relNext)) :
    ((es.foldl applyEntry pag).NextPageOptions).isSome = true := by
  induction es generalizing pag with
  | nil => simp at h
  | cons e rest ih =>
    rcases h with ⟨x, hx, u, hu⟩
    rcases List.mem_cons.1 hx with rfl | hx2
    · refine foldl_next_isSome_of_isSome rest _ ?_
      simp [applyEntry, hu, paginationStep]
    · exact ih _ ⟨x, hx2, u, hu⟩

theorem foldl_prev_isSome (es : List (List Char)) (pag : Pagination)
    (h : ∃ e ∈ es, ∃ u, linkRegexMatch e = some (u, relPrevious)) :
    ((es.foldl applyEntry pag).PreviousPageOptions).isSome = true := by
  induction es generalizing pag with
  | nil => simp at h
  | cons e rest ih =>
    rcases h with ⟨x, hx, u, hu⟩
    rcases List.mem_cons.1 hx with rfl | hx2
    · refine foldl_prev_isSome_of_isSome rest _ ?_
      simp [applyEntry, hu, paginationStep, relPrevious, relNext]
    · exact ih _ ⟨x, hx2, u, hu⟩

/-! ### Lemmas about the query-string round trip -/

theorem splitOn_ne_nil (sep : Char) (l : List Char) : splitOn sep l ≠ [] := by
  induction l with
  | nil => simp [splitOn]
  | cons c rest ih =>
    unfold splitOn
    by_cases hc : c = sep
    · simp [hc]
    · cases hr : splitOn sep rest with
      | nil => exact absurd hr ih
      | cons q qs => simp [hc, hr]

theorem splitOn_not_mem (sep : Char) (l : List Char) :
    ∀ p ∈ splitOn sep l, sep ∉ p := by
  induction l with
  | nil => intro p hp; simp [splitOn] at hp; simp [hp]
  | cons c rest ih =>
    intro p hp
    by_cases hc : c = sep
    · have hsplit : splitOn sep (c :: rest) = [] :: splitOn sep rest := by
        simp [splitOn, hc]
      rw [hsplit] at hp
      rcases List.mem_cons.1 hp with rfl | hp
      · simp
      · exact ih p hp
    · cases hr : splitOn sep rest with
      | nil => exact absurd hr (splitOn_ne_nil sep rest)
      | cons q qs =>
        simp only [splitOn, if_neg hc, hr] at hp
        rcases List.mem_cons.1 hp with rfl | hp2
        · have hq : sep ∉ q := ih q (by rw [hr]; simp)
          simp only [List.mem_cons, not_or]
          exact ⟨fun heq => hc heq.symm, hq⟩
        · exact ih p (by rw [hr]; simp [hp2])

theorem splitOn_no_sep (sep : Char) (p : List Char) (h : sep ∉ p) :
    splitOn sep p = [p] := by
  induction p with
  | nil => rfl
  | cons c rest ih =>
    simp only [List.mem_cons, not_or] at h
    have hcs : ¬ c = sep := fun heq => h.1 heq.symm
    simp [splitOn, hcs, ih h.2]

theorem splitOn_append (sep : Char) (p rest : List Char) (h : sep ∉ p) :
    splitOn sep (p ++ sep :: rest) = p :: splitOn sep rest := by
  induction p with
  | nil => simp [splitOn]
  | cons c cs ih =>
    simp only [List.mem_cons, not_or] at h
    have hcs : ¬ c = sep := fun heq => h.1 heq.symm
    simp [splitOn, hcs, ih h.2]

theorem intercalate_cons_cons (c : Char) (p q : List Char) (rest : List (List Char)) :
    List.intercalate [c] (p :: q :: rest) = p ++ c :: List.intercalate [c] (q :: rest) := by
  simp [List.intercalate, List.intersperse]

theorem splitOn_intercalate (sep : Char) (parts : List (List Char))
    (hne : parts ≠ []) (h : ∀ p ∈ parts, sep ∉ p) :
    splitOn sep (List.intercalate [sep] parts) = parts := by
  induction parts with
  | nil => exact absurd rfl hne
  | cons p rest ih =>
    rcases rest with _ | ⟨q, qs⟩
    · rw [show List.intercalate [sep] [p] = p by simp [List.intercalate]]
      exact splitOn_no_sep sep p (h p (by simp))
    · rw [intercalate_cons_cons, splitOn_append sep p _ (h p (by simp)),
        ih (by simp) fun x hx => h x (by simp [List.mem_cons] at hx ⊢; tauto)]

theorem splitFirstEq_no_eq (s : List Char) : '=' ∉ (splitFirstEq s).1 := by
  induction s with
  | nil => simp [splitFirstEq]
  | cons c rest ih =>
    unfold splitFirstEq
    by_cases hc : c = '='
    · simp [hc]
    · have hcs : ¬ '=' = c := fun heq => hc heq.symm
      simp [hc, hcs, ih]

theorem splitFirstEq_subset (s : List Char) :
    (∀ x ∈ (splitFirstEq s).1, x ∈ s) ∧ (∀ x ∈ (splitFirstEq s).2, x ∈ s) := by
  induction s with
  | nil => simp [splitFirstEq]
  | cons c rest ih =>
    unfold splitFirstEq
    by_cases hc : c = '='
    · refine ⟨by simp [hc], ?_⟩
      intro x hx
      simp only [if_pos hc] at hx
      simp [hx]
    · refine ⟨?_, ?_⟩ <;> intro x hx <;> simp only [if_neg hc] at hx
      · rcases List.mem_cons.1 hx with rfl | hx2
        · simp
        · simp [ih.1 x hx2]
      · simp [ih.2 x hx]

theorem splitFirstEq_append (k v : List Char) (h : '=' ∉ k) :
    splitFirstEq (k ++ '=' :: v) = (k, v) := by
  induction k with
  | nil => simp [splitFirstEq]
  | cons c cs ih =>
    simp only [List.mem_cons, not_or] at h
    have hcs : ¬ c = '=' := fun heq => h.1 heq.symm
    simp [splitFirstEq, hcs, ih h.2]

/-- A key-value pair as they come out of `parseQueryString`: no `&` in either
component, no `=` in the key. -/
def wfPair (kv : List Char × List Char) : Prop :=
  '&' ∉ kv.1 ∧ '&' ∉ kv.2 ∧ '=' ∉ kv.1

theorem parseQueryString_wf (q : List Char) : ∀ kv ∈ parseQueryString q, wfPair kv := by
  intro kv hkv
  simp only [parseQueryString, List.mem_map, List.mem_filter] at hkv
  obtain ⟨seg, ⟨hseg, -⟩, rfl⟩ := hkv
  have hamp : '&' ∉ seg := splitOn_not_mem '&' q seg hseg
  refine ⟨?_, ?_, splitFirstEq_no_eq seg⟩
  · exact fun hx => hamp ((splitFirstEq_subset seg).1 '&' hx)
  · exact fun hx => hamp ((splitFirstEq_subset seg).2 '&' hx)

theorem parse_serializeQuery (ps : ListOptions) (h : ∀ kv ∈ ps, wfPair kv) :
    parseQueryString (serializeQuery ps) = ps := by
  rcases hps : ps with _ | ⟨kv0, rest⟩
  · rfl
  rw [← hps]
  have hne : ps.map (fun kv => kv.1 ++ '=' :: kv.2) ≠ [] := by simp [hps]
  have hnosep : ∀ p ∈ ps.map (fun kv => kv.1 ++ '=' :: kv.2), '&' ∉ p := by
    intro p hp
    simp only [List.mem_map] at hp
    obtain ⟨kv, hkv, rfl⟩ := hp
    obtain ⟨h1, h2, -⟩ := h kv hkv
    simp only [List.mem_append, List.mem_cons, not_or]
    exact ⟨h1, by decide, h2⟩
  unfold parseQueryString serializeQuery
  rw [splitOn_intercalate '&' _ hne hnosep]
  have hfil : (ps.map (fun kv => kv.1 ++ '=' :: kv.2)).filter (· ≠ []) =
      ps.map (fun kv => kv.1 ++ '=' :: kv.2) := by
    refine List.filter_eq_self.2 ?_
    intro p hp
    simp only [List.mem_map] at hp
    obtain ⟨kv, -, rfl⟩ := hp
    simp
  rw [hfil, List.map_map]
  conv_rhs => rw [← List.map_id ps]
  refine List.map_congr_left ?_
  intro kv hkv
  exact splitFirstEq_append kv.1 kv.2 (h kv hkv).2.2

/-- Cursors extracted by the parser survive a serialize-then-parse round
trip. -/
def goodCursor (c : ListOptions) : Prop :=
  parseQueryString (serializeQuery c) = c

theorem goodCursor_parseQueryString (q : List Char) : goodCursor (parseQueryString q) :=
  parse_serializeQuery _ (parseQueryString_wf q)

theorem goodCursor_parseQuery (url : List Char) : goodCursor (parseQuery url) :=
  goodCursor_parseQueryString _

/-- Both cursor fields of a pagination survive the round trip. -/
def goodPagination (pag : Pagination) : Prop :=
  (∀ c, pag.NextPageOptions = some c → goodCursor c) ∧
  (∀ c, pag.PreviousPageOptions = some c → goodCursor c)

theorem paginationStep_good (pag : Pagination) (o : Option (List Char × List Char))
    (h : goodPagination pag) : goodPagination (paginationStep pag o) := by
  rcases o with - | ⟨url, rel⟩
  · exact h
  · unfold paginationStep
    by_cases hn : rel = relNext
    · refine ⟨?_, ?_⟩ <;> intro c hc <;> simp [hn] at hc
      · exact hc ▸ goodCursor_parseQuery url
      · exact h.2 c hc
    · by_cases hp : rel = relPrevious
      · refine ⟨?_, ?_⟩ <;> intro c hc <;>
          simp [hn, hp, relPrevious_ne_relNext] at hc
        · exact h.1 c hc
        · exact hc ▸ goodCursor_parseQuery url
      · simpa [hn, hp] using h

theorem foldl_applyEntry_good (es : List (List Char)) (pag : Pagination)
    (h : goodPagination pag) : goodPagination (es.foldl applyEntry pag) := by
  induction es generalizing pag with
  | nil => exact h
  | cons e rest ih => exact ih _ (paginationStep_good pag (linkRegexMatch e) h)

theorem extractPagination_good (header : List Char) :
    goodPagination (extractPagination header) :=
  foldl_applyEntry_good _ _ ⟨by simp, by simp⟩

/-! ### Receiver-preservation helpers -/

theorem ProductServiceOp_LWP_receiver {α : Type} (decode : List Char → Option (List α))
    (s : ProductServiceOp) (options : Option ListOptions) :
    (ProductServiceOp.ListWithPagination decode s options).receiver = s := by
  simp only [ProductServiceOp.ListWithPagination]
  split <;> rfl

theorem ProductServiceOp_List_receiver {α : Type} (decode : List Char → Option (List α))
    (s : ProductServiceOp) (options : Option ListOptions) :
    (ProductServiceOp.List decode s options).receiver = s := by
  simp only [ProductServiceOp.List]
  split <;> exact ProductServiceOp_LWP_receiver decode s options

theorem PayoutsServiceOp_LWP_receiver {α : Type} (decode : List Char → Option (List α))
    (s : PayoutsServiceOp) (options : Option ListOptions) :
    (PayoutsServiceOp.ListWithPagination decode s options).receiver = s := by
  simp only [PayoutsServiceOp.ListWithPagination]
  split <;> rfl

theorem PayoutsServiceOp_List_receiver {α : Type} (decode : List Char → Option (List α))
    (s : PayoutsServiceOp) (options : Option ListOptions) :
    (PayoutsServiceOp.List decode s options).receiver = s := by
  simp only [PayoutsServiceOp.List]
  split <;> exact PayoutsServiceOp_LWP_receiver decode s options

theorem PayoutsServiceOp_TFP_receiver {α : Type} (decode : List Char → Option (List α))
    (s : PayoutsServiceOp) (payoutID : Int) :
    (PayoutsServiceOp.TransactionsForPayout decode s payoutID).receiver = s := by
  simp only [PayoutsServiceOp.TransactionsForPayout]
  split <;> rfl

theorem ProductServiceOp_client_ext (s1 s2 : ProductServiceOp)
    (h : s1.client = s2.client) : s1 = s2 := by
  cases s1; cases s2; simpa using h

theorem PayoutsServiceOp_client_ext (s1 s2 : PayoutsServiceOp)
    (h : s1.client = s2.client) : s1 = s2 := by
  cases s1; cases s2; simpa using h

/-! ## The claims -/

/-- C1: every Link-header entry of the form optional spaces, `<`, a URL
containing no `>`, `>; rel="`, exactly `previous` or `next`, `"`, optional
spaces, and nothing else, is matched by `linkRegex` with exactly the URL and
the relation name as the two capture groups; and conversely every matching
entry is of that form, so an entry not of that form (such as `rel="first"`,
a missing space after `;`, or an unquoted relation) does not match. -/
theorem C1_linkRegex_language :
    (∀ ws1 url rel ws2, allSpaces ws1 = true → url ≠ [] → '>' ∉ url →
      (rel = relPrevious ∨ rel = relNext) → allSpaces ws2 = true →
      linkRegexMatch (mkEntry ws1 url rel ws2) = some (url, rel)) ∧
    (∀ s url rel, linkRegexMatch s = some (url, rel) →
      ∃ ws1 ws2, allSpaces ws1 = true ∧ allSpaces ws2 = true ∧ url ≠ [] ∧
        '>' ∉ url ∧ (rel = relPrevious ∨ rel = relNext) ∧
        s = mkEntry ws1 url rel ws2) :=
  ⟨linkRegexMatch_mkEntry, linkRegexMatch_some_decomp⟩

theorem C1_linkRegex_language_witness :
    linkRegexMatch
        (mkEntry [' '] (("https://shop.example.com/x?a=1").toList) relNext [' ', ' ']) =
      some ((("https://shop.example.com/x?a=1")).toList, relNext) :=
  C1_linkRegex_language.1 [' '] _ relNext [' ', ' '] (by decide) (by decide) (by decide)
    (Or.inr rfl) (by decide)

/-- C2: an absent or empty Link header parses to the empty pagination, a
header none of whose entries match `linkRegex` parses to the empty
pagination, and the generic `ListWithPagination` call succeeds regardless of
the Link header whenever the status is 2xx and the body decodes — absence or
malformation of pagination metadata is never an error. -/
theorem C2_missing_header_not_error :
    extractPaginationHeader none = ⟨none, none⟩ ∧
    extractPagination [] = ⟨none, none⟩ ∧
    (∀ h, (∀ e ∈ splitOn ',' h, linkRegexMatch e = none) →
      extractPagination h = ⟨none, none⟩) ∧
    (∀ (α : Type) (c : Client) (decode : List Char → Option (List α))
        (path : List Char) (options : Option ListOptions) (r : RawResp) (items : List α),
      c.call .get path none options = .ok r → is2xx r.status = true →
      decode r.body = some items →
      (Client.ListWithPagination c decode path options).2 =
        .ok (items, extractPaginationHeader r.linkHeader)) := by
  refine ⟨rfl, rfl, fun h hall => foldl_applyEntry_skip _ _ hall, ?_⟩
  intro α c decode path options r items hcall h2xx hdec
  simp [Client.ListWithPagination, hcall, h2xx, hdec]

theorem C2_missing_header_not_error_witness :
    extractPagination (("not a link header").toList) = ⟨none, none⟩ ∧
    (Client.ListWithPagination ⟨fun _ _ _ _ => .ok ⟨200, none, []⟩⟩
        (fun _ => some ([] : List Nat)) [] none).2 = .ok ([], ⟨none, none⟩) :=
  ⟨C2_missing_header_not_error.2.2.1 _ (by decide),
   C2_missing_header_not_error.2.2.2 Nat ⟨fun _ _ _ _ => .ok ⟨200, none, []⟩⟩
     (fun _ => some []) [] none ⟨200, none, []⟩ [] rfl (by decide) rfl⟩

/-- C3: a Link header consisting of exactly one entry that `linkRegex`
matches with relation `next` parses to a pagination whose next cursor is the
entry URL's query parameters and whose previous cursor is absent; on the
spec's example header the next cursor is limit `50` and page_info `abc123`. -/
theorem C3_single_next_entry :
    (∀ h e url, splitOn ',' h = [e] → linkRegexMatch e = some (url, relNext) →
      extractPagination h = ⟨some (parseQuery url), none⟩) ∧
    extractPagination
        (("<https://shop.example.com/admin/api/2023-01/products.json?limit=50&page_info=abc123>; rel=\"next\"").toList) =
      ⟨some [(("limit").toList, ("50").toList), (("page_info").toList, ("abc123").toList)],
        none⟩ := by
  constructor
  · intro h e url hsplit hmatch
    unfold extractPagination
    rw [hsplit]
    simp [applyEntry, hmatch, paginationStep]
  · decide

theorem C3_single_next_entry_witness :
    extractPagination (("<https://x/a.json?limit=5>; rel=\"next\"").toList) =
      ⟨some (parseQuery (("https://x/a.json?limit=5").toList)), none⟩ :=
  C3_single_next_entry.1 _ (("<https://x/a.json?limit=5>; rel=\"next\"").toList)
    (("https://x/a.json?limit=5").toList) (by decide) (by decide)

/-- C4: entries of a Link header that `linkRegex` does not match (for
example an entry with relation `first`) are silently skipped, and the next
cursor is exactly the one extracted from the valid `next` entry. -/
theorem C4_unknown_relation_skipped :
    ∀ h es1 e es2 url, splitOn ',' h = es1 ++ e :: es2 →
      (∀ x ∈ es1, linkRegexMatch x = none) →
      (∀ x ∈ es2, linkRegexMatch x = none) →
      linkRegexMatch e = some (url, relNext) →
      (extractPagination h).NextPageOptions = some (parseQuery url) := by
  intro h es1 e es2 url hsplit h1 h2 hmatch
  unfold extractPagination
  rw [hsplit, List.foldl_append, foldl_applyEntry_skip es1 _ h1, List.foldl_cons,
    foldl_applyEntry_skip es2 _ h2]
  simp [applyEntry, hmatch, paginationStep]

theorem C4_unknown_relation_skipped_witness :
    (extractPagination
        (("<https://x/a?p=1>; rel=\"first\", <https://x/a?page_info=b>; rel=\"next\"").toList)).NextPageOptions =
      some (parseQuery (("https://x/a?page_info=b").toList)) :=
  C4_unknown_relation_skipped _ [(("<https://x/a?p=1>; rel=\"first\"").toList)]
    ((" <https://x/a?page_info=b>; rel=\"next\"").toList) [] _
    (by decide) (by decide) (by decide) (by decide)

/-- C5: whenever the generic paged list call fails with any error (transport,
API, or decode), `ListWithPagination` of both services returns nil items, nil
pagination and that error — no partial result accompanies an error. -/
theorem C5_error_propagation :
    (∀ (α : Type) (decode : List Char → Option (List α)) (s : ProductServiceOp)
        (options : Option ListOptions) (e : ClientError),
      (Client.ListWithPagination s.client decode
          (productsBasePath ++ (".json").toList) options).2 = .error e →
      (ProductServiceOp.ListWithPagination decode s options).result =
        (none, none, some e)) ∧
    (∀ (α : Type) (decode : List Char → Option (List α)) (s : PayoutsServiceOp)
        (options : Option ListOptions) (e : ClientError),
      (Client.ListWithPagination s.client decode
          (payoutsBasePath ++ (".json").toList) options).2 = .error e →
      (PayoutsServiceOp.ListWithPagination decode s options).result =
        (none, none, some e)) := by
  refine ⟨?_, ?_⟩ <;> intro α decode s options e h
  · simp only [ProductServiceOp.ListWithPagination]
    rw [h]
  · simp only [PayoutsServiceOp.ListWithPagination]
    rw [h]

theorem C5_error_propagation_witness :
    (ProductServiceOp.ListWithPagination (fun _ => some ([] : List Nat))
        ⟨⟨fun _ _ _ _ => .error (("boom").toList)⟩⟩ none).result =
      (none, none, some (.transport (("boom").toList))) ∧
    (PayoutsServiceOp.ListWithPagination (fun _ => some ([] : List Nat))
        ⟨⟨fun _ _ _ _ => .error (("boom").toList)⟩⟩ none).result =
      (none, none, some (.transport (("boom").toList))) :=
  ⟨C5_error_propagation.1 Nat _ _ none _ rfl,
   C5_error_propagation.2 Nat _ _ none _ rfl⟩

/-- C6: a Link header containing both a matching `previous` entry and a
matching `next` entry parses to a pagination with both cursors present, and
every cursor the parser stores survives a serialize-then-parse round trip
unchanged. -/
theorem C6_roundtrip_both_cursors :
    ∀ h : List Char,
      ((∃ e ∈ splitOn ',' h, ∃ u, linkRegexMatch e = some (u, relPrevious)) →
       (∃ e ∈ splitOn ',' h, ∃ u, linkRegexMatch e = some (u, relNext)) →
       (extractPagination h).PreviousPageOptions.isSome = true ∧
       (extractPagination h).NextPageOptions.isSome = true) ∧
      (∀ c, (extractPagination h).NextPageOptions = some c →
        parseQueryString (serializeQuery c) = c) ∧
      (∀ c, (extractPagination h).PreviousPageOptions = some c →
        parseQueryString (serializeQuery c) = c) := by
  intro h
  exact ⟨fun hp hn => ⟨foldl_prev_isSome _ _ hp, foldl_next_isSome _ _ hn⟩,
    (extractPagination_good h).1, (extractPagination_good h).2⟩

theorem C6_roundtrip_both_cursors_witness :
    ((extractPagination
        (("<https://x/a?a=1>; rel=\"previous\", <https://x/a?b=2>; rel=\"next\"").toList)).PreviousPageOptions.isSome = true ∧
     (extractPagination
        (("<https://x/a?a=1>; rel=\"previous\", <https://x/a?b=2>; rel=\"next\"").toList)).NextPageOptions.isSome = true) ∧
    parseQueryString (serializeQuery [(['b'], ['2'])]) = [(['b'], ['2'])] :=
  ⟨(C6_roundtrip_both_cursors _).1
      ⟨(("<https://x/a?a=1>; rel=\"previous\"").toList), by decide,
        (("https://x/a?a=1").toList), by decide⟩
      ⟨((" <https://x/a?b=2>; rel=\"next\"").toList), by decide,
        (("https://x/a?b=2").toList), by decide⟩,
   (C6_roundtrip_both_cursors
      (("<https://x/a?a=1>; rel=\"previous\", <https://x/a?b=2>; rel=\"next\"").toList)).2.1
      [(['b'], ['2'])] (by decide)⟩

/-- C7: the service components are stateless: the client reference is the
whole of their state (two components with equal clients are equal), every
operation returns its receiver unchanged, and calls on components with the
same client behave identically. -/
theorem C7_stateless_services :
    (∀ s1 s2 : ProductServiceOp, s1.client = s2.client → s1 = s2) ∧
    (∀ s1 s2 : PayoutsServiceOp, s1.client = s2.client → s1 = s2) ∧
    (∀ (α : Type) (decode : List Char → Option (List α)) (s : ProductServiceOp)
        (options : Option ListOptions),
      (ProductServiceOp.ListWithPagination decode s options).receiver = s) ∧
    (∀ (α : Type) (decode : List Char → Option (List α)) (s : ProductServiceOp)
        (options : Option ListOptions),
      (ProductServiceOp.List decode s options).receiver = s) ∧
    (∀ (dc : List Char → Option Int) (s : ProductServiceOp) (options : Option ListOptions),
      (ProductServiceOp.Count dc s options).receiver = s) ∧
    (∀ (α : Type) (d1 : List Char → Option α) (s : ProductServiceOp) (pid : Int)
        (options : Option ListOptions),
      (ProductServiceOp.Get d1 s pid options).receiver = s) ∧
    (∀ (α β : Type) (enc : β → List Char) (d1 : List Char → Option α)
        (s : ProductServiceOp) (p : β),
      (ProductServiceOp.Create enc d1 s p).receiver = s) ∧
    (∀ (α β : Type) (idf : β → Int) (enc : β → List Char) (d1 : List Char → Option α)
        (s : ProductServiceOp) (p : β),
      (ProductServiceOp.Update idf enc d1 s p).receiver = s) ∧
    (∀ (s : ProductServiceOp) (pid : Int),
      (ProductServiceOp.Delete s pid).receiver = s) ∧
    (∀ (α : Type) (decode : List Char → Option (List α)) (s : PayoutsServiceOp)
        (options : Option ListOptions),
      (PayoutsServiceOp.ListWithPagination decode s options).receiver = s) ∧
    (∀ (α : Type) (decode : List Char → Option (List α)) (s : PayoutsServiceOp)
        (options : Option ListOptions),
      (PayoutsServiceOp.List decode s options).receiver = s) ∧
    (∀ (α : Type) (d1 : List Char → Option α) (s : PayoutsServiceOp) (pid : Int)
        (options : Option ListOptions),
      (PayoutsServiceOp.Get d1 s pid options).receiver = s) ∧
    (∀ (α : Type) (decode : List Char → Option (List α)) (s : PayoutsServiceOp) (pid : Int),
      (PayoutsServiceOp.TransactionsForPayout decode s pid).receiver = s) ∧
    (∀ (α : Type) (decode : List Char → Option (List α)) (s1 s2 : ProductServiceOp)
        (options : Option ListOptions), s1.client = s2.client →
      ProductServiceOp.ListWithPagination decode s1 options =
        ProductServiceOp.ListWithPagination decode s2 options) ∧
    (∀ (α : Type) (decode : List Char → Option (List α)) (s1 s2 : PayoutsServiceOp)
        (options : Option ListOptions), s1.client = s2.client →
      PayoutsServiceOp.ListWithPagination decode s1 options =
        PayoutsServiceOp.ListWithPagination decode s2 options) := by
  refine ⟨ProductServiceOp_client_ext, PayoutsServiceOp_client_ext,
    fun α d s o => ProductServiceOp_LWP_receiver d s o,
    fun α d s o => ProductServiceOp_List_receiver d s o,
    fun dc s o => rfl, fun α d1 s pid o => rfl, fun α β e d1 s p => rfl,
    fun α β i e d1 s p => rfl, fun s pid => rfl,
    fun α d s o => PayoutsServiceOp_LWP_receiver d s o,
    fun α d s o => PayoutsServiceOp_List_receiver d s o,
    fun α d1 s pid o => rfl,
    fun α d s pid => PayoutsServiceOp_TFP_receiver d s pid, ?_, ?_⟩
  · intro α d s1 s2 o h
    rw [ProductServiceOp_client_ext s1 s2 h]
  · intro α d s1 s2 o h
    rw [PayoutsServiceOp_client_ext s1 s2 h]

theorem C7_stateless_services_witness :
    (⟨⟨fun _ _ _ _ => .error []⟩⟩ : ProductServiceOp) =
      ⟨⟨fun _ _ _ _ => .error []⟩⟩ :=
  C7_stateless_services.1 ⟨⟨fun _ _ _ _ => .error []⟩⟩ ⟨⟨fun _ _ _ _ => .error []⟩⟩ rfl

/-- C8: the header-matching pattern is a single top-level constant — its
alternatives and literal pieces are exactly those of the `linkRegex` source
literal — and every parse of a Link-header entry goes through that one
matcher: the header parse is the fold of `applyEntry`, and `applyEntry`
factors through `linkRegexMatch` applied to the entry. -/
theorem C8_single_pattern_constant :
    relPrevious = ("previous").toList ∧
    relNext = ("next").toList ∧
    midLit = ((">; rel=\"")).toList ∧
    (∀ h, extractPagination h = (splitOn ',' h).foldl applyEntry ⟨none, none⟩) ∧
    (∀ pag e, applyEntry pag e = paginationStep pag (linkRegexMatch e)) :=
  ⟨by decide, by decide, by decide, fun h => rfl, fun pag e => rfl⟩

/-- C9: `List` of each service is `ListWithPagination` with the pagination
discarded: when the paginated call reports no error, `List` returns exactly
its items with no error; when it reports an error, `List` returns nil items
and the same error. -/
theorem C9_list_refines_paginated :
    (∀ (α : Type) (decode : List Char → Option (List α)) (s : ProductServiceOp)
        (options : Option ListOptions),
      ((ProductServiceOp.ListWithPagination decode s options).result.2.2 = none →
        (ProductServiceOp.List decode s options).result =
          ((ProductServiceOp.ListWithPagination decode s options).result.1, none)) ∧
      (∀ e, (ProductServiceOp.ListWithPagination decode s options).result.2.2 = some e →
        (ProductServiceOp.List decode s options).result = (none, some e))) ∧
    (∀ (α : Type) (decode : List Char → Option (List α)) (s : PayoutsServiceOp)
        (options : Option ListOptions),
      ((PayoutsServiceOp.ListWithPagination decode s options).result.2.2 = none →
        (PayoutsServiceOp.List decode s options).result =
          ((PayoutsServiceOp.ListWithPagination decode s options).result.1, none)) ∧
      (∀ e, (PayoutsServiceOp.ListWithPagination decode s options).result.2.2 = some e →
        (PayoutsServiceOp.List decode s options).result = (none, some e))) := by
  constructor <;> intro α decode s options <;> constructor
  · intro h
    simp only [ProductServiceOp.List]
    rw [h]
  · intro e h
    simp only [ProductServiceOp.List]
    rw [h]
  · intro h
    simp only [PayoutsServiceOp.List]
    rw [h]
  · intro e h
    simp only [PayoutsServiceOp.List]
    rw [h]

theorem C9_list_refines_paginated_witness :
    (ProductServiceOp.List (fun _ => some ([] : List Nat))
        ⟨⟨fun _ _ _ _ => .ok ⟨200, none, []⟩⟩⟩ none).result =
      ((ProductServiceOp.ListWithPagination (fun _ => some ([] : List Nat))
        ⟨⟨fun _ _ _ _ => .ok ⟨200, none, []⟩⟩⟩ none).result.1, none) :=
  (C9_list_refines_paginated.1 Nat (fun _ => some [])
    ⟨⟨fun _ _ _ _ => .ok ⟨200, none, []⟩⟩⟩ none).1 rfl

/-- C10: `TransactionsForPayout` issues exactly one paged list request, a GET
of `shopify_payments/balance/transactions.json?payout_id=` followed by the
payout ID, with nil options; it discards the returned pagination, returning
only that single page's transactions, and on error returns nil transactions
and the error. -/
theorem C10_transactions_single_page :
    ∀ (α : Type) (decode : List Char → Option (List α)) (s : PayoutsServiceOp)
      (payoutID : Int),
      (PayoutsServiceOp.TransactionsForPayout decode s payoutID).requests =
        [(HttpMethod.get,
          ("shopify_payments/balance/transactions.json?payout_id=").toList ++
            (toString payoutID).toList, none, none)] ∧
      (∀ e, (Client.ListWithPagination s.client decode
          (payoutTransactionsBasePath ++ (".json?payout_id=").toList ++
            (toString payoutID).toList) none).2 = .error e →
        (PayoutsServiceOp.TransactionsForPayout decode s payoutID).result =
          (none, some e)) ∧
      (∀ txs pag, (Client.ListWithPagination s.client decode
          (payoutTransactionsBasePath ++ (".json?payout_id=").toList ++
            (toString payoutID).toList) none).2 = .ok (txs, pag) →
        (PayoutsServiceOp.TransactionsForPayout decode s payoutID).result =
          (some txs, none)) := by
  intro α decode s payoutID
  have hpath : payoutTransactionsBasePath ++ (".json?payout_id=").toList =
      ("shopify_payments/balance/transactions.json?payout_id=").toList := by decide
  refine ⟨?_, ?_, ?_⟩
  · simp only [PayoutsServiceOp.TransactionsForPayout, Client.ListWithPagination]
    split <;> rw [hpath]
  · intro e h
    simp only [PayoutsServiceOp.TransactionsForPayout]
    rw [h]
  · intro txs pag h
    simp only [PayoutsServiceOp.TransactionsForPayout]
    rw [h]

theorem C10_transactions_single_page_witness :
    (PayoutsServiceOp.TransactionsForPayout (fun _ => some ([] : List Nat))
        ⟨⟨fun _ _ _ _ => .ok ⟨200, some (("<u?page_info=n>; rel=\"next\"").toList), []⟩⟩⟩
        42).requests =
      [(HttpMethod.get,
        ("shopify_payments/balance/transactions.json?payout_id=").toList ++
          (toString (42 : Int)).toList, none, none)] ∧
    (PayoutsServiceOp.TransactionsForPayout (fun _ => some ([] : List Nat))
        ⟨⟨fun _ _ _ _ => .ok ⟨200, some (("<u?page_info=n>; rel=\"next\"").toList), []⟩⟩⟩
        42).result = (some [], none) :=
  ⟨(C10_transactions_single_page Nat (fun _ => some [])
      ⟨⟨fun _ _ _ _ => .ok ⟨200, some (("<u?page_info=n>; rel=\"next\"").toList), []⟩⟩⟩ 42).1,
   (C10_transactions_single_page Nat (fun _ => some [])
      ⟨⟨fun _ _ _ _ => .ok ⟨200, some (("<u?page_info=n>; rel=\"next\"").toList), []⟩⟩⟩ 42).2.2
      [] (extractPaginationHeader (some (("<u?page_info=n>; rel=\"next\"").toList))) rfl⟩

end GoShopify
